import Mathlib

/-
Formal model of the invoice-reminder utility (React component
src/invoice_notifier_app.jsx and the vanilla-JS variant src/unnamed/part_000,
with backend send.php). Spreadsheet cells are modeled as a JS-value type
(valid native date, integer number, or string); instants are milliseconds
since the Unix epoch in a fixed-offset (UTC) time model; engine-dependent
string date parsing (Date.parse) is an explicit function parameter.
-/

/-- A spreadsheet cell value as the JS code sees it: a (valid) native Date
carrying its timestamp in milliseconds, a number (the program only meets
integral numbers, so numbers are modeled as integers), or a string. -/
inductive JSVal where
  | date (ms : Int)
  | num (n : Int)
  | str (s : String)
deriving DecidableEq

/-- JS truthiness of a cell value. A Date object is always truthy; a number is
truthy unless zero; a string is truthy unless empty. -/
def truthy : JSVal → Bool
  | .date _ => true
  | .num n => n != 0
  | .str s => s != ""

/-- Lowercases an ASCII letter; models JS toLowerCase on the ASCII range the
program's data uses. -/
def lowerChar (c : Char) : Char :=
  if 'A' ≤ c ∧ c ≤ 'Z' then Char.ofNat (c.toNat + 32) else c

/-- Lowercases a character list. -/
def lowerL (s : List Char) : List Char := s.map lowerChar

/-- JS whitespace for trimming (space, tab, line feed, carriage return,
vertical tab, form feed). -/
def jsWhitespace (c : Char) : Bool :=
  c == ' ' || c == Char.ofNat 9 || c == Char.ofNat 10 || c == Char.ofNat 13 ||
  c == Char.ofNat 11 || c == Char.ofNat 12

/-- Models JS String.trim: removes leading and trailing whitespace. -/
def jsTrimL (s : List Char) : List Char :=
  ((s.dropWhile jsWhitespace).reverse.dropWhile jsWhitespace).reverse

/-- Numeric value of a digit list (most significant first). -/
def digitsVal (ds : List Char) : Nat := ds.foldl (fun a c => a * 10 + (c.toNat - 48)) 0

/-- Value of a nonempty all-digit list, none otherwise. -/
def parseDigits (ds : List Char) : Option Nat :=
  match ds with
  | [] => none
  | _ => if ds.all Char.isDigit then some (digitsVal ds) else none

/-- Models JS Number() on the string shapes this program meets: after trimming,
the empty string converts to 0 and an optional-sign decimal-integer literal
converts to its value; every other string is NaN, returned as none. Fractional,
exponent and hex literals are outside the modeled input domain. -/
def jsNumber (s : String) : Option Int :=
  match jsTrimL s.data with
  | [] => some 0
  | c :: rest =>
    if c = '-' then (parseDigits rest).map (fun n => -(n : Int))
    else if c = '+' then (parseDigits rest).map (fun n => (n : Int))
    else (parseDigits (c :: rest)).map (fun n => (n : Int))

/-- Models JS String() coercion for the values the program stringifies: a number
prints as its decimal form; a string is itself. The engine- and locale-dependent
Date toString is modeled abstractly; no claim evaluates it. -/
def jsToString : JSVal → String
  | .date ms => "Date(" ++ toString ms ++ ")"
  | .num n => toString n
  | .str s => s

/-- Property-style lookup in a sheet row object (header name to cell value);
a missing key is JS undefined, modeled as none. -/
def jsGet (r : List (String × JSVal)) (k : String) : Option JSVal :=
  (r.find? (fun p => p.1 == k)).map Prod.snd

/-- Lookup through a possibly-absent column name: indexing with undefined
yields undefined. -/
def jsGetOpt (r : List (String × JSVal)) (k : Option String) : Option JSVal :=
  match k with
  | some key => jsGet r key
  | none => none

/-- Milliseconds per day. -/
def msPerDay : Int := 86400000

/-- Day index of an instant: floor division of milliseconds since the epoch by
one day. Models the start-of-day operation in the fixed-offset time model. -/
def dayIdx (ms : Int) : Int := Int.fdiv ms msPerDay

/-- Converts a day number (days since 1970-01-01) to a calendar date
(year, month, day), proleptic Gregorian. -/
def civilFromDays (z0 : Int) : Int × Nat × Nat :=
  let z := z0 + 719468
  let era : Int := Int.fdiv z 146097
  let doe : Nat := (z - era * 146097).toNat
  let yoe : Nat := (doe - doe / 1460 + doe / 36524 - doe / 146096) / 365
  let y : Int := (yoe : Int) + era * 400
  let doy : Nat := doe - (365 * yoe + yoe / 4 - yoe / 100)
  let mp : Nat := (5 * doy + 2) / 153
  let d : Nat := doy - (153 * mp + 2) / 5 + 1
  let m : Nat := if mp < 10 then mp + 3 else mp - 9
  (if m ≤ 2 then y + 1 else y, m, d)

/-- Day number of the first day of month m (1..12) of year y, proleptic
Gregorian. -/
def firstDayOfMonth (y : Int) (m : Nat) : Int :=
  let y1 : Int := if m ≤ 2 then y - 1 else y
  let era : Int := Int.fdiv y1 400
  let yoe : Nat := (y1 - era * 400).toNat
  let mp : Nat := if 2 < m then m - 3 else m + 9
  let doy : Nat := (153 * mp + 2) / 5
  let doe : Nat := yoe * 365 + yoe / 4 - yoe / 100 + doy
  era * 146097 + (doe : Int) - 719468

/-- Models the ECMAScript MakeDay operation used by the Date(year, month, day)
constructor: the year/month pair is normalized by carrying whole years, then
day - 1 days are added. Returns a day number. -/
def jsMakeDay (y monthIdx day : Int) : Int :=
  let ym := y * 12 + monthIdx
  let ny := Int.fdiv ym 12
  let nm := (Int.fmod ym 12).toNat
  firstDayOfMonth ny (nm + 1) + (day - 1)

/-- Zero-pads a number to two digits. -/
def pad2 (n : Nat) : String := if n < 10 then "0" ++ toString n else toString n

/-- Zero-pads a number to four digits. -/
def pad4 (n : Nat) : String :=
  if n < 10 then "000" ++ toString n
  else if n < 100 then "00" ++ toString n
  else if n < 1000 then "0" ++ toString n
  else toString n

/-- ISO calendar-date rendering of a day number, as produced by
toISOString().slice(0,10) and by date-fns format(d, 'yyyy-MM-dd') in the
fixed-offset model. -/
def isoDateString (dayNumber : Int) : String :=
  match civilFromDays dayNumber with
  | (y, m, d) => pad4 y.toNat ++ "-" ++ pad2 m ++ "-" ++ pad2 d

/-- Models the date-normalization block of handleFile in
src/invoice_notifier_app.jsx (lines 87-105): a falsy raw cell gives null; a
native Date is used as is; otherwise Number(String(raw)) is tried, and when it
is not NaN the value is read as a spreadsheet serial day count via
(num - 25569) * 86400 * 1000 ms; only then general string parsing (Date.parse,
abstracted as the jsDateParse parameter) runs. For a numeric cell,
Number(String(n)) = n, so the serial branch receives the cell value itself. -/
def jsxParseDate (jsDateParse : String → Option Int) (rawDate : Option JSVal) : Option Int :=
  match rawDate with
  | none => none
  | some v =>
    if truthy v then
      match v with
      | .date ms => some ms
      | .num n => some ((n - 25569) * msPerDay)
      | .str s =>
        match jsNumber s with
        | some n => some ((n - 25569) * msPerDay)
        | none => jsDateParse s
    else none

/-- A Date built from a millisecond number is valid iff the magnitude is at
most 8.64e15 ms. -/
def maxDateMs : Int := 8640000000000000

/-- Models new Date(n) for a number n: the timestamp itself when in range,
otherwise an invalid date (none). -/
def jsNewDateNum (n : Int) : Option Int :=
  if -maxDateMs ≤ n ∧ n ≤ maxDateMs then some n else none

/-- Separator class of the part_000 date regex: slash or hyphen. -/
def isSep (c : Char) : Bool := c == '/' || c == '-'

/-- Takes exactly k digits from the head of s, returning their value and the
rest. -/
def takeExactDigits (k : Nat) (s : List Char) : Option (Nat × List Char) :=
  let pre := s.take k
  if pre.length = k ∧ pre.all Char.isDigit then some (digitsVal pre, s.drop k) else none

/-- Tries digit-run lengths in the order a greedy backtracking matcher would,
passing the value and remaining input to the continuation. -/
def pickDigits {α : Type} (lens : List Nat) (s : List Char)
    (k : Nat → List Char → Option α) : Option α :=
  match lens with
  | [] => none
  | l :: ls =>
    match takeExactDigits l s with
    | some (n, rest) => (k n rest) <|> pickDigits ls s k
    | none => pickDigits ls s k

/-- Requires a separator at the head of s and continues on the rest. -/
def sepThen {α : Type} (s : List Char) (k : List Char → Option α) : Option α :=
  match s with
  | c :: rest => if isSep c then k rest else none
  | [] => none

/-- Matches the part_000 date regex, one-or-two digits, separator, one-or-two
digits, separator, two-to-four digits, anchored at the head of s, with the
greedy backtracking order of a JS regex engine. -/
def matchDMYAt (s : List Char) : Option (Nat × Nat × Nat) :=
  pickDigits [2, 1] s fun a s1 =>
  sepThen s1 fun s2 =>
  pickDigits [2, 1] s2 fun b s3 =>
  sepThen s3 fun s4 =>
  pickDigits [4, 3, 2] s4 fun c _ => some (a, b, c)

/-- Leftmost match of the part_000 date regex anywhere in s. -/
def searchDMY : List Char → Option (Nat × Nat × Nat)
  | [] => none
  | c :: t => matchDMYAt (c :: t) <|> searchDMY t

/-- The day/month/year regex fallback of parseDateMaybe (part_000 lines 24-28):
day = first group, month index = second group minus one, year = third group
with two-digit years read as 2000 plus the value; the result goes through the
Date(year, month, day) constructor. Returns milliseconds. -/
def regexDateBranch (s : String) : Option Int :=
  match searchDMY s.data with
  | some (a, b, c) =>
    let year : Int := if c < 100 then 2000 + (c : Int) else (c : Int)
    some (jsMakeDay year ((b : Int) - 1) (a : Int) * msPerDay)
  | none => none

/-- Models parseDateMaybe in src/unnamed/part_000 (lines 15-30): a falsy value
gives null; a valid native Date is returned as is; otherwise new Date(val) is
tried (for a number, the millisecond timestamp; for a string, the engine's
string parsing, abstracted as jsDateParse); if that is invalid, the
day/month/year regex runs on the string form; if everything fails, null. -/
def parseDateMaybe (jsDateParse : String → Option Int) (val : JSVal) : Option Int :=
  if truthy val then
    match val with
    | .date ms => some ms
    | .num n =>
      match jsNewDateNum n with
      | some ms => some ms
      | none => regexDateBranch (jsToString (.num n))
    | .str s =>
      match jsDateParse s with
      | some ms => some ms
      | none => regexDateBranch s
  else none

/-- Models the affirmative-paid test embedded in line 117 of
src/invoice_notifier_app.jsx: paid && paid.toString().toLowerCase().startsWith('y').
There is no trimming. -/
def isAffirmative (paid : JSVal) : Bool :=
  truthy paid && ("y".data).isPrefixOf (lowerL (jsToString paid).data)

/-- Models the days/overdue computation of handleFile (lines 112-118): days is
the calendar-day difference (date-fns differenceInCalendarDays, the difference
of day indices in the fixed-offset model) and the threshold is the hardcoded
30; a row without a parsed date keeps days null and overdue false. -/
def jsxAge (today : Int) (parsedDate : Option Int) (paid : JSVal) : Option Int × Bool :=
  match parsedDate with
  | none => (none, false)
  | some d =>
    let days := dayIdx today - dayIdx d
    (some days, decide (30 < days) && !(isAffirmative paid))

/-- Models the days/overdue computation of the parseBtn listener in
src/unnamed/part_000 (lines 75-77): days is Math.floor((today - dt) / 86400000)
and overdue is days not null and days greater than the chosen limit. No paid
flag is consulted. -/
def p000Age (today : Int) (daysLimit : Int) (dt : Option Int) : Option Int × Bool :=
  match dt with
  | none => (none, false)
  | some d =>
    let days := Int.fdiv (today - d) msPerDay
    (some days, decide (daysLimit < days))

/-- Tests whether pat occurs as a contiguous run inside s; models JS
String.includes. -/
def containsSeq (s pat : List Char) : Bool :=
  match s with
  | [] => pat.isEmpty
  | _ :: t => pat.isPrefixOf s || containsSeq t pat

/-- The logical columns the React component maps headers onto. -/
inductive LogicalCol where
  | name
  | email
  | invoice
  | date
  | amount
  | paid
deriving DecidableEq

/-- Candidate substrings per logical column, from mapColumns in
src/invoice_notifier_app.jsx (lines 54-61). -/
def jsxCandidates : LogicalCol → List String
  | .name => ["client", "clientname", "name", "customer"]
  | .email => ["email", "e-mail", "mail"]
  | .invoice => ["invoice", "invoice#", "invoicenumber", "ref", "facture", "facture#"]
  | .date => ["date", "invoicedate", "datefacture", "facturedate", "date de facture"]
  | .amount => ["amount", "montant", "total", "balance"]
  | .paid => ["paid", "status", "etat", "paiement"]

/-- Models normalizeHeader (lines 46-48): trim then lowercase (the falsy guard
in the source returns the empty string for an empty header, which trimming and
lowercasing also do). -/
def normalizeHeader (h : String) : String := String.mk (lowerL (jsTrimL h.data))

/-- Models JS Array.findIndex, with -1 for no hit rendered as none. -/
def jsFindIndex {α : Type} (p : α → Bool) : List α → Option Nat
  | [] => none
  | x :: t => if p x then some 0 else (jsFindIndex p t).map (· + 1)

/-- A header matches a logical column when its normalized form contains some
candidate substring for that column. -/
def headerMatches (f : LogicalCol) (h : String) : Bool :=
  (jsxCandidates f).any (fun n => containsSeq (normalizeHeader h).data n.data)

/-- Models mapColumns (lines 50-67): the headers are normalized, findIndex
picks the first whose normalized form contains a candidate substring, and the
original header at that index is recorded; no hit leaves the column unmapped. -/
def mapColumns (headers : List String) (f : LogicalCol) : Option String :=
  match jsFindIndex (fun h => (jsxCandidates f).any (fun n => containsSeq h.data n.data))
      (headers.map normalizeHeader) with
  | some i => headers[i]?
  | none => none

/-- Inner scan of findKey in src/unnamed/part_000 (lines 56-61): walks the
lowercased headers in original order; at the first one containing any
candidate, the original-case header with that lowercase form is looked up. -/
def findKeyAux (origHeaders : List String) (cands : List String) : List String → Option String
  | [] => none
  | k :: rest =>
    if cands.any (fun c => containsSeq k.data c.data) then
      origHeaders.find? (fun x => String.mk (lowerL x.data) == k)
    else findKeyAux origHeaders cands rest

/-- Models findKey in src/unnamed/part_000: headers are lowercased (without
trimming) before the substring scan. -/
def findKey (origHeaders : List String) (cands : List String) : Option String :=
  findKeyAux origHeaders cands (origHeaders.map (fun h => String.mk (lowerL h.data)))

/-- One imported row of the React component, as built in handleFile
(lines 120-132). -/
structure JsxRow where
  id : Int
  clientName : JSVal
  email : JSVal
  invoiceNumber : JSVal
  invoiceDate : String
  rawInvoiceDate : Option Int
  amount : JSVal
  paid : JSVal
  days : Option Int
  overdue : Bool
  excluded : Bool
deriving DecidableEq

/-- Models the row construction of handleFile (lines 86-133) for the sheet row
r at index i: cells are fetched through the column map with the legacy
fallbacks, the date is normalized, and days/overdue derive from it and the
paid cell; excluded starts false. -/
def jsxBuildRow (jsDateParse : String → Option Int) (colMap : LogicalCol → Option String)
    (today : Int) (r : List (String × JSVal)) (i : Nat) : JsxRow :=
  let rawDate := jsGetOpt r (colMap .date) <|> jsGet r "InvoiceDate" <|> jsGet r "Date"
  let parsedDate := jsxParseDate jsDateParse rawDate
  let amountCell := (jsGetOpt r (colMap .amount) <|> jsGet r "Amount" <|> jsGet r "Montant").getD (.str "")
  let invoiceNumber := (jsGetOpt r (colMap .invoice) <|> jsGet r "Invoice" <|> jsGet r "Facture").getD (.str "")
  let clientName := (jsGetOpt r (colMap .name) <|> jsGet r "Client").getD (.str "")
  let email := (jsGetOpt r (colMap .email) <|> jsGet r "Email").getD (.str "")
  let paid := (jsGetOpt r (colMap .paid)).getD (.str "")
  let a := jsxAge today parsedDate paid
  { id := (i : Int) + 1
    clientName := clientName
    email := email
    invoiceNumber := invoiceNumber
    invoiceDate := match parsedDate with
      | some ms => isoDateString (dayIdx ms)
      | none => ""
    rawInvoiceDate := parsedDate
    amount := amountCell
    paid := paid
    days := a.1
    overdue := a.2
    excluded := false }

/-- Models toggleExclude in src/invoice_notifier_app.jsx (lines 144-146):
every row whose id matches gets its excluded flag flipped, all others are kept
as they are. -/
def toggleExclude (id : Int) (rows : List JsxRow) : List JsxRow :=
  rows.map fun x => if x.id == id then { x with excluded := !x.excluded } else x

/-- Models the eligible-set filter of sendReminders (line 153): overdue, not
excluded, truthy email. -/
def jsxToSend (rows : List JsxRow) : List JsxRow :=
  rows.filter fun r => r.overdue && !r.excluded && truthy r.email

/-- One parsed row of the vanilla-JS variant, as built in the parseBtn
listener of src/unnamed/part_000 (lines 78-86). -/
structure P000Row where
  id : Int
  client : JSVal
  email : JSVal
  invoice : JSVal
  invoiceDate : JSVal
  amount : JSVal
  days : Option Int
  overdue : Bool
  excluded : Bool
deriving DecidableEq

/-- The column map of part_000 (lines 62-68); there is no paid column. -/
structure P000Map where
  client : Option String
  email : Option String
  invoice : Option String
  date : Option String
  amount : Option String

/-- Builds the part_000 column map from the headers with findKey and the
candidate lists of lines 63-67. -/
def p000BuildMap (headers : List String) : P000Map :=
  { client := findKey headers ["client", "name", "customer", "societe", "client"]
    email := findKey headers ["email", "mail"]
    invoice := findKey headers ["invoice", "facture", "ref"]
    date := findKey headers ["date", "invoicedate", "datefacture", "facture"]
    amount := findKey headers ["amount", "montant", "total", "balance"] }

/-- Models the row construction of the parseBtn listener (lines 72-87) for the
sheet row r at index i. The sheet row carries every cell, including any Paid
column, which this code never reads. -/
def p000BuildRow (jsDateParse : String → Option Int) (m : P000Map)
    (today daysLimit : Int) (r : List (String × JSVal)) (i : Nat) : P000Row :=
  let rawDate := (jsGetOpt r m.date <|> jsGet r "Date").getD (.str "")
  let dt := parseDateMaybe jsDateParse rawDate
  let a := p000Age today daysLimit dt
  { id := (i : Int) + 1
    client := (jsGetOpt r m.client <|> jsGet r "Client").getD (.str "")
    email := (jsGetOpt r m.email <|> jsGet r "Email").getD (.str "")
    invoice := (jsGetOpt r m.invoice <|> jsGet r "Invoice").getD (.str "")
    invoiceDate := match dt with
      | some ms => .str (isoDateString (dayIdx ms))
      | none => if truthy rawDate then rawDate else .str ""
    amount := (jsGetOpt r m.amount <|> jsGet r "Amount").getD (.str "")
    days := a.1
    overdue := a.2
    excluded := false }

/-- Models the checkbox change listener of part_000 (lines 118-124): the first
row with the given id gets its excluded flag set to the checkbox state; when
no row matches, nothing changes. -/
def p000SetExcluded (id : Int) (checked : Bool) : List P000Row → List P000Row
  | [] => []
  | x :: t => if x.id == id then { x with excluded := checked } :: t
              else x :: p000SetExcluded id checked t

/-- Models the eligible-set filter of the sendBtn listener in part_000
(line 128): overdue, not excluded, truthy email. -/
def p000ToSend (rows : List P000Row) : List P000Row :=
  rows.filter fun r => r.overdue && !r.excluded && truthy r.email

/-- First index at which pat occurs in s; models JS String.indexOf with a
string pattern (an empty pattern matches at position zero). -/
def firstMatchIdx (pat : List Char) : List Char → Option Nat
  | [] => if pat.isEmpty then some 0 else none
  | c :: t => if pat.isPrefixOf (c :: t) then some 0 else (firstMatchIdx pat t).map (· + 1)

/-- Models the ECMAScript GetSubstitution expansion of dollar patterns inside
the replacement string, for a string (non-regex) pattern: a doubled dollar
yields one dollar, dollar-ampersand the matched text, dollar-backquote the
text before the match, dollar-single-quote the text after the match; anything
else is kept verbatim. -/
def getSubstitution (matched before after : List Char) : List Char → List Char
  | [] => []
  | [c] => [c]
  | c :: d :: t2 =>
    if c = '$' then
      if d = '$' then '$' :: getSubstitution matched before after t2
      else if d = '&' then matched ++ getSubstitution matched before after t2
      else if d = Char.ofNat 96 then before ++ getSubstitution matched before after t2
      else if d = Char.ofNat 39 then after ++ getSubstitution matched before after t2
      else c :: getSubstitution matched before after (d :: t2)
    else c :: getSubstitution matched before after (d :: t2)

/-- Models JS String.replace with a string pattern on character lists: the
first occurrence of pat (by indexOf) is spliced out and the expanded
replacement spliced in; with no occurrence the string is unchanged. -/
def jsReplaceFirstL (pat repl s : List Char) : List Char :=
  match firstMatchIdx pat s with
  | none => s
  | some i =>
    s.take i ++ getSubstitution pat (s.take i) (s.drop (i + pat.length)) repl ++
      s.drop (i + pat.length)

/-- String-level wrapper of jsReplaceFirstL. -/
def jsReplaceFirst (pat repl s : String) : String :=
  String.mk (jsReplaceFirstL pat.data repl.data s.data)

/-- Written after the words of the spec (section 4.5): only the first
occurrence of the placeholder is replaced, by the replacement text verbatim,
and the rest of the string is left as it is. To be compared with the
source-derived jsReplaceFirstL. -/
def specReplaceFirstL (pat repl s : List Char) : List Char :=
  match firstMatchIdx pat s with
  | none => s
  | some i => s.take i ++ repl ++ s.drop (i + pat.length)

/-- String-level wrapper of specReplaceFirstL. -/
def specReplaceFirst (pat repl s : String) : String :=
  String.mk (specReplaceFirstL pat.data repl.data s.data)

/-- String form of the days field as JS coerces it inside the template
substitution: a number prints in decimal, null prints as the word null. -/
def jsDaysToString : Option Int → String
  | some n => toString n
  | none => "null"

/-- Models the message construction of sendReminders
(src/invoice_notifier_app.jsx lines 167-171): four successive
single-occurrence replacements applied in the order name, invoice, amount,
days, each to the result of the previous one. -/
def renderTemplate (t : String) (x : JsxRow) : String :=
  jsReplaceFirst "\x7b\x7bdays\x7d\x7d" (jsDaysToString x.days)
    (jsReplaceFirst "\x7b\x7bamount\x7d\x7d" (jsToString x.amount)
      (jsReplaceFirst "\x7b\x7binvoice\x7d\x7d" (jsToString x.invoiceNumber)
        (jsReplaceFirst "\x7b\x7bname\x7d\x7d" (jsToString x.clientName) t)))

/-- The same four-step pipeline with the spec-words substitution, for the
refinement comparison. -/
def specRenderTemplate (t : String) (x : JsxRow) : String :=
  specReplaceFirst "\x7b\x7bdays\x7d\x7d" (jsDaysToString x.days)
    (specReplaceFirst "\x7b\x7bamount\x7d\x7d" (jsToString x.amount)
      (specReplaceFirst "\x7b\x7binvoice\x7d\x7d" (jsToString x.invoiceNumber)
        (specReplaceFirst "\x7b\x7bname\x7d\x7d" (jsToString x.clientName) t)))

/-- True when the string holds no dollar character, so that GetSubstitution
leaves it verbatim. -/
def noDollar (s : String) : Bool := !s.data.contains '$'

/-- Modelled from the spec: the spec's eligible set admits only rows whose
email is syntactically valid, but the only syntactic validation in this
repository lives outside the modeled frontend, in send.php's
FILTER_VALIDATE_EMAIL. Abstracted to the weakest reasonable check, one
at-sign with nonempty text on both sides; every notion of syntactic email
validity agrees that a string without an at-sign is invalid, which is all the
analysis needs. -/
def emailSyntacticallyValid (s : String) : Bool :=
  match firstMatchIdx ['@'] s.data with
  | some i => decide (0 < i) && decide (i + 1 < s.data.length)
  | none => false

/-- A concrete eligible-looking row whose email has no at-sign; used to probe
the eligible-set filter. -/
def invalidEmailRow : JsxRow :=
  { id := 1
    clientName := .str "Acme"
    email := .str "not-an-email"
    invoiceNumber := .str "F1"
    invoiceDate := "2020-01-01"
    rawInvoiceDate := some 0
    amount := .str "10"
    paid := .str ""
    days := some 40
    overdue := true
    excluded := false }

/-- A concrete row whose client name is itself a placeholder token; used to
probe the template substitution. -/
def cascadeRow : JsxRow :=
  { id := 1
    clientName := .str "\x7b\x7binvoice\x7d\x7d"
    email := .str "a@b.co"
    invoiceNumber := .str "INV"
    invoiceDate := ""
    rawInvoiceDate := none
    amount := .str "9"
    paid := .str ""
    days := some 40
    overdue := true
    excluded := false }

/-- A concrete plain row for witness instantiations. -/
def sampleRowA : JsxRow :=
  { id := 7
    clientName := .str "Zed"
    email := .str "z@x.co"
    invoiceNumber := .str "F9"
    invoiceDate := "2020-02-02"
    rawInvoiceDate := some 0
    amount := .str "55"
    paid := .str "no"
    days := some 3
    overdue := false
    excluded := false }

/-- The sheet row of the paid-flag probe: an old invoice date and an
affirmative Paid cell. -/
def paidYesSheetRow : List (String × JSVal) :=
  [("Date", JSVal.str "01/01/2020"), ("Paid", JSVal.str "yes"),
   ("Client", JSVal.str "Acme"), ("Email", JSVal.str "a@b.co"),
   ("Invoice", JSVal.str "F1"), ("Amount", JSVal.str "100")]

/-- The headers of the paid-flag probe sheet. -/
def paidYesHeaders : List String := ["Date", "Paid", "Client", "Email", "Invoice", "Amount"]

/-- A string date parser that always fails, representing an engine where
general string parsing rejects the probed inputs. -/
def noStringDates : String → Option Int := fun _ => none

/-- A string built from a nonempty character list is not the empty string. -/
theorem string_mk_cons_ne_empty (c : Char) (t : List Char) : String.mk (c :: t) ≠ "" := by
  intro h
  exact List.cons_ne_nil c t (String.ext_iff.mp h)

/-- The length of a toggled record list is unchanged. -/
theorem toggleExclude_length (id : Int) (rows : List JsxRow) :
    (toggleExclude id rows).length = rows.length := by
  simp [toggleExclude]

/-- Elementwise description of toggleExclude. -/
theorem toggleExclude_getElem (id : Int) (rows : List JsxRow) (i : Nat)
    (hi : i < rows.length) (hi2 : i < (toggleExclude id rows).length) :
    (toggleExclude id rows)[i] =
      if rows[i].id == id then { rows[i] with excluded := !rows[i].excluded } else rows[i] := by
  simp [toggleExclude]

/-- Toggling an id that no row carries changes nothing. -/
theorem toggleExclude_noop (id : Int) (rows : List JsxRow)
    (h : ∀ x ∈ rows, x.id ≠ id) : toggleExclude id rows = rows := by
  induction rows with
  | nil => rfl
  | cons x t ih =>
    have hx : (x.id == id) = false := by
      simpa using h x (List.mem_cons_self x t)
    have ht := ih (fun y hy => h y (List.mem_cons_of_mem _ hy))
    simp only [toggleExclude, List.map_cons, hx, Bool.false_eq_true, if_false] at *
    rw [ht]

/-- The length of the part_000 exclusion update is unchanged. -/
theorem p000SetExcluded_length (id : Int) (b : Bool) (rows : List P000Row) :
    (p000SetExcluded id b rows).length = rows.length := by
  induction rows with
  | nil => rfl
  | cons x t ih =>
    by_cases h : x.id == id
    · simp [p000SetExcluded, h]
    · simp [p000SetExcluded, h, ih]

/-- Elementwise description of the part_000 exclusion update: every position
holds either the old row or the old row with only its excluded flag set. -/
theorem p000SetExcluded_getElem (id : Int) (b : Bool) :
    ∀ (rows : List P000Row) (i : Nat) (hi : i < rows.length)
      (hi2 : i < (p000SetExcluded id b rows).length),
      (p000SetExcluded id b rows)[i] = rows[i] ∨
        (rows[i].id = id ∧ (p000SetExcluded id b rows)[i] = { rows[i] with excluded := b }) := by
  intro rows
  induction rows with
  | nil => intro i hi hi2; exact absurd hi (by simp)
  | cons x t ih =>
    intro i hi hi2
    by_cases h : x.id == id
    · cases i with
      | zero =>
        right
        refine ⟨by simpa using h, ?_⟩
        simp [p000SetExcluded, h]
      | succ k =>
        left
        simp [p000SetExcluded, h]
    · cases i with
      | zero =>
        left
        simp [p000SetExcluded, h]
      | succ k =>
        have hk : k < t.length := by simpa using hi
        have hk2 : k < (p000SetExcluded id b t).length := by
          rw [p000SetExcluded_length]; exact hk
        have := ih k hk hk2
        simpa [p000SetExcluded, h] using this

/-- Updating an id that no row carries changes nothing in part_000. -/
theorem p000SetExcluded_noop (id : Int) (b : Bool) (rows : List P000Row)
    (h : ∀ x ∈ rows, x.id ≠ id) : p000SetExcluded id b rows = rows := by
  induction rows with
  | nil => rfl
  | cons x t ih =>
    have hx : (x.id == id) = false := by
      simpa using h x (List.mem_cons_self x t)
    have ht := ih (fun y hy => h y (List.mem_cons_of_mem _ hy))
    simp only [p000SetExcluded, hx, Bool.false_eq_true, if_false]
    rw [ht]

/-- Claim C10: toggling the exclusion flag is an involution; applying
toggleExclude twice with the same id returns the record list to exactly its
original state. -/
theorem c10_toggle_involution (rows : List JsxRow) (id : Int) :
    toggleExclude id (toggleExclude id rows) = rows := by
  apply List.ext_getElem
  · rw [toggleExclude_length, toggleExclude_length]
  · intro i h1 h2
    have hb : i < (toggleExclude id rows).length := by
      rw [toggleExclude_length]; exact h2
    rw [toggleExclude_getElem id _ i hb h1, toggleExclude_getElem id rows i h2 hb]
    by_cases h : (rows[i].id == id) = true
    · simp [h, Bool.not_not]
    · simp [h]

/-- Claim C9 (confirmed): toggling the exclusion flag for an id changes at
most the excluded field of rows with that id; overdue, days (ageDays), id and
all display fields of every row are untouched, and when no row carries the id
the whole list is unchanged. Stated for the React toggleExclude and for the
part_000 checkbox handler. -/
theorem c9_toggle_frame :
    (∀ (rows : List JsxRow) (id : Int),
      ((∀ x ∈ rows, x.id ≠ id) → toggleExclude id rows = rows) ∧
      (toggleExclude id rows).length = rows.length ∧
      ∀ (i : Nat) (hi : i < rows.length) (hi2 : i < (toggleExclude id rows).length),
        ((toggleExclude id rows)[i].overdue = rows[i].overdue ∧
         (toggleExclude id rows)[i].days = rows[i].days ∧
         (toggleExclude id rows)[i].id = rows[i].id ∧
         (toggleExclude id rows)[i].clientName = rows[i].clientName ∧
         (toggleExclude id rows)[i].email = rows[i].email ∧
         (toggleExclude id rows)[i].invoiceNumber = rows[i].invoiceNumber ∧
         (toggleExclude id rows)[i].invoiceDate = rows[i].invoiceDate ∧
         (toggleExclude id rows)[i].rawInvoiceDate = rows[i].rawInvoiceDate ∧
         (toggleExclude id rows)[i].amount = rows[i].amount ∧
         (toggleExclude id rows)[i].paid = rows[i].paid) ∧
        (rows[i].id ≠ id → (toggleExclude id rows)[i] = rows[i]) ∧
        (rows[i].id = id → (toggleExclude id rows)[i].excluded = !rows[i].excluded)) ∧
    (∀ (rows : List P000Row) (id : Int) (b : Bool),
      ((∀ x ∈ rows, x.id ≠ id) → p000SetExcluded id b rows = rows) ∧
      (p000SetExcluded id b rows).length = rows.length ∧
      ∀ (i : Nat) (hi : i < rows.length) (hi2 : i < (p000SetExcluded id b rows).length),
        (p000SetExcluded id b rows)[i].overdue = rows[i].overdue ∧
        (p000SetExcluded id b rows)[i].days = rows[i].days ∧
        (p000SetExcluded id b rows)[i].id = rows[i].id ∧
        (rows[i].id ≠ id → (p000SetExcluded id b rows)[i] = rows[i])) := by
  constructor
  · intro rows id
    refine ⟨toggleExclude_noop id rows, toggleExclude_length id rows, ?_⟩
    intro i hi hi2
    rw [toggleExclude_getElem id rows i hi hi2]
    by_cases h : (rows[i].id == id) = true
    · rw [if_pos h]
      exact ⟨⟨rfl, rfl, rfl, rfl, rfl, rfl, rfl, rfl, rfl, rfl⟩,
             fun hne => absurd (by simpa using h) hne, fun _ => rfl⟩
    · rw [if_neg h]
      exact ⟨⟨rfl, rfl, rfl, rfl, rfl, rfl, rfl, rfl, rfl, rfl⟩,
             fun _ => rfl, fun heq => absurd heq (by simpa using h)⟩
  · intro rows id b
    refine ⟨p000SetExcluded_noop id b rows, p000SetExcluded_length id b rows, ?_⟩
    intro i hi hi2
    rcases p000SetExcluded_getElem id b rows i hi hi2 with h | ⟨hid, h⟩
    · rw [h]
      exact ⟨rfl, rfl, rfl, fun _ => rfl⟩
    · rw [h]
      exact ⟨rfl, rfl, rfl, fun hne => absurd hid hne⟩

/-- Claim C9 witness: the frame theorem applied to a concrete list and an id
no row carries; the toggle is a no-op there. -/
theorem c9_toggle_frame_witness : toggleExclude 99 [sampleRowA] = [sampleRowA] :=
  (c9_toggle_frame.1 [sampleRowA] 99).1 (by decide)

/-- Claim C2 counterexample: a record that is overdue, not excluded and whose
email is nonempty but has no at-sign (syntactically invalid under any
reasonable reading) is nevertheless selected for notification by the
frontend filter; the claim says such a record is never selected. -/
theorem c2_counterexample :
    jsxToSend [invalidEmailRow] = [invalidEmailRow] ∧
    invalidEmailRow.email = JSVal.str "not-an-email" ∧
    emailSyntacticallyValid "not-an-email" = false := by
  exact ⟨by decide, by decide, by decide⟩

/-- Claim C2 (amended): a record is selected for notification exactly when it
is overdue, not excluded and its email cell is truthy (nonempty); syntactic
validity of the email is not part of the frontend selection, in either
implementation. -/
theorem c2_amended :
    (∀ (rows : List JsxRow) (r : JsxRow),
      r ∈ jsxToSend rows ↔
        r ∈ rows ∧ r.overdue = true ∧ r.excluded = false ∧ truthy r.email = true) ∧
    (∀ (rows : List P000Row) (r : P000Row),
      r ∈ p000ToSend rows ↔
        r ∈ rows ∧ r.overdue = true ∧ r.excluded = false ∧ truthy r.email = true) := by
  constructor
  · intro rows r
    simp [jsxToSend, List.mem_filter, and_assoc]
  · intro rows r
    simp [p000ToSend, List.mem_filter, and_assoc]

/-- Claim C7 (confirmed): date normalization is total by construction (both
normalizers are functions into an option type, with null as the failure
value), and a row whose date normalizes to null gets null ageDays and is never
classified overdue, in both implementations and for every engine string
parser. -/
theorem c7_null_never_overdue :
    (∀ (jsDateParse : String → Option Int) (v : JSVal) (today limit : Int),
      parseDateMaybe jsDateParse v = none →
        (p000Age today limit (parseDateMaybe jsDateParse v)).1 = none ∧
        (p000Age today limit (parseDateMaybe jsDateParse v)).2 = false) ∧
    (∀ (jsDateParse : String → Option Int) (rd : Option JSVal) (today : Int) (paid : JSVal),
      jsxParseDate jsDateParse rd = none →
        (jsxAge today (jsxParseDate jsDateParse rd) paid).1 = none ∧
        (jsxAge today (jsxParseDate jsDateParse rd) paid).2 = false) := by
  constructor
  · intro p v today limit h
    rw [h]
    exact ⟨rfl, rfl⟩
  · intro p rd today paid h
    rw [h]
    exact ⟨rfl, rfl⟩

/-- Claim C7 witness: a string no strategy parses (the engine parser fails,
the regex finds no date shape) normalizes to null and the row is not
overdue. -/
theorem c7_null_never_overdue_witness :
    (p000Age 0 30 (parseDateMaybe noStringDates (JSVal.str "not a date"))).2 = false :=
  (c7_null_never_overdue.1 noStringDates (JSVal.str "not a date") 0 30 (by decide)).2

/-- Claim C1 counterexample: the part_000 import pipeline never reads a paid
cell, so a sheet row with an affirmative Paid value and an old invoice date is
classified overdue, where the claim predicts overdue = false for every row
whose paid flag is affirmative. -/
theorem c1_counterexample :
    (p000BuildRow noStringDates (p000BuildMap paidYesHeaders) (18322 * 86400000) 30
        paidYesSheetRow 0).overdue = true ∧
    jsGet paidYesSheetRow "Paid" = some (JSVal.str "yes") ∧
    isAffirmative (JSVal.str "yes") = true := by
  exact ⟨by decide, by decide, by decide⟩

/-- Claim C1 (amended): in the React app a row is overdue exactly when its
ageDays is non-null, greater than the hardcoded threshold 30, and its paid
flag is not affirmative; in the part_000 variant the paid flag is ignored and
a row is overdue exactly when its days value is non-null and greater than the
chosen limit. -/
theorem c1_overdue_rule :
    (∀ (today : Int) (pd : Option Int) (paid : JSVal),
      (jsxAge today pd paid).2 = true ↔
        ((jsxAge today pd paid).1 ≠ none ∧
         (∃ d, (jsxAge today pd paid).1 = some d ∧ 30 < d) ∧
         isAffirmative paid = false)) ∧
    (∀ (today limit : Int) (dt : Option Int),
      (p000Age today limit dt).2 = true ↔
        ((p000Age today limit dt).1 ≠ none ∧
         ∃ d, (p000Age today limit dt).1 = some d ∧ limit < d)) := by
  constructor
  · intro today pd paid
    cases pd with
    | none => simp [jsxAge]
    | some d =>
      simp [jsxAge, Bool.and_eq_true, decide_eq_true_iff, Bool.not_eq_true', and_comm]
  · intro today limit dt
    cases dt with
    | none => simp [p000Age]
    | some d => simp [p000Age, decide_eq_true_iff]

/-- Claim C4 counterexample: the affirmative-paid test does not trim, so the
value " yes" with a leading space is not affirmative even though its trimmed,
lowercased form starts with y, as the claim requires. -/
theorem c4_counterexample :
    isAffirmative (JSVal.str " yes") = false ∧
    ("y".data).isPrefixOf (lowerL (jsTrimL " yes".data)) = true := by
  exact ⟨by decide, by decide⟩

/-- Claim C4 (amended): a paid-flag string counts as affirmative exactly when
its lowercased form, without any trimming, starts with y (the truthiness guard
in the source is subsumed, since an empty string cannot start with y). -/
theorem c4_affirmative_rule (s : String) :
    isAffirmative (JSVal.str s) = ("y".data).isPrefixOf (lowerL s.data) := by
  obtain ⟨l⟩ := s
  cases l with
  | nil => decide
  | cons c t =>
    have h1 : (String.mk (c :: t) != "") = true := by
      simpa using string_mk_cons_ne_empty c t
    simp [isAffirmative, truthy, jsToString, h1]

/-- Claim C5 counterexample: in part_000, with an invoice instant at noon and
a current instant at ten in the morning thirty calendar days later, ageDays is
29 while the calendar-day difference is 30; the claim says ageDays always
equals the calendar-day difference and is independent of time of day. -/
theorem c5_counterexample :
    (p000Age ((18658 : Int) * msPerDay + 10 * 3600000) 30
        (some ((18628 : Int) * msPerDay + 12 * 3600000))).1 = some 29 ∧
    dayIdx ((18658 : Int) * msPerDay + 10 * 3600000) -
        dayIdx ((18628 : Int) * msPerDay + 12 * 3600000) = 30 ∧
    (29 : Int) ≠ 30 := by
  exact ⟨by decide, by decide, by decide⟩

/-- Claim C5 (amended): the React app's ageDays is the calendar-day
difference of day indices, independent of time of day; the part_000 variant's
ageDays is the floor of the elapsed duration in days, which agrees with the
calendar-day difference whenever both instants sit on day boundaries but can
differ (by the counterexample) when they do not. -/
theorem c5_age_days_rule :
    (∀ (today d : Int) (paid : JSVal),
      (jsxAge today (some d) paid).1 = some (dayIdx today - dayIdx d)) ∧
    (∀ (today dt limit : Int),
      (p000Age today limit (some dt)).1 = some (Int.fdiv (today - dt) msPerDay)) ∧
    (∀ (ta td limit : Int),
      (p000Age (ta * msPerDay) limit (some (td * msPerDay))).1 = some (ta - td) ∧
      dayIdx (ta * msPerDay) - dayIdx (td * msPerDay) = ta - td) := by
  refine ⟨fun today d paid => rfl, fun today dt limit => rfl, fun ta td limit => ⟨?_, ?_⟩⟩
  · show some (Int.fdiv (ta * msPerDay - td * msPerDay) msPerDay) = some (ta - td)
    rw [← Int.sub_mul, Int.mul_fdiv_cancel _ (by decide)]
  · show Int.fdiv (ta * msPerDay) msPerDay - Int.fdiv (td * msPerDay) msPerDay = ta - td
    rw [Int.mul_fdiv_cancel _ (by decide), Int.mul_fdiv_cancel _ (by decide)]

/-- Claim C3 counterexample: the part_000 normalizer has no serial branch;
the numeric cell 44197 becomes the millisecond timestamp 44197, whose calendar
date is 1970-01-01, not the 2021-01-01 the claim requires. -/
theorem c3_counterexample :
    parseDateMaybe noStringDates (JSVal.num 44197) = some 44197 ∧
    civilFromDays (dayIdx 44197) = (1970, 1, 1) ∧
    ((1970, 1, 1) : Int × Nat × Nat) ≠ ((2021, 1, 1) : Int × Nat × Nat) := by
  exact ⟨by decide, by decide, by decide⟩

/-- Claim C3 (amended): in the React app's normalizer every truthy numeric
cell n, and every nonempty string that fully parses as a number, is read as a
spreadsheet serial day count, mapped to (n - 25569) days from the epoch, an
anchoring under which serial 0 is 1899-12-30 and serial 44197 is 2021-01-01;
the string case holds for every engine string parser, so the serial reading
is indeed tried before general string date parsing. -/
theorem c3_serial_date_rule :
    (∀ (jsDateParse : String → Option Int) (n : Int), n ≠ 0 →
      jsxParseDate jsDateParse (some (JSVal.num n)) = some ((n - 25569) * msPerDay)) ∧
    (∀ (jsDateParse : String → Option Int) (s : String) (n : Int),
      jsNumber s = some n → s ≠ "" →
      jsxParseDate jsDateParse (some (JSVal.str s)) = some ((n - 25569) * msPerDay)) ∧
    (∀ n : Int, dayIdx ((n - 25569) * msPerDay) = n - 25569) ∧
    civilFromDays ((0 : Int) - 25569) = (1899, 12, 30) ∧
    civilFromDays ((44197 : Int) - 25569) = (2021, 1, 1) := by
  refine ⟨?_, ?_, ?_, by decide, by decide⟩
  · intro p n hn
    have ht : truthy (JSVal.num n) = true := by
      simp [truthy, hn]
    simp [jsxParseDate, ht]
  · intro p s n hnum hs
    have ht : truthy (JSVal.str s) = true := by
      simp [truthy, hs]
    simp [jsxParseDate, ht, hnum]
  · intro n
    simp only [dayIdx]
    exact Int.mul_fdiv_cancel _ (by decide)

/-- Claim C3 witness: the serial rule applied at the numeric cell 44197 and at
the numeric string 44197, under a string parser that rejects everything. -/
theorem c3_serial_date_rule_witness :
    jsxParseDate noStringDates (some (JSVal.num 44197)) = some ((44197 - 25569) * msPerDay) ∧
    jsxParseDate noStringDates (some (JSVal.str "44197")) = some ((44197 - 25569) * msPerDay) :=
  ⟨c3_serial_date_rule.1 noStringDates 44197 (by decide),
   c3_serial_date_rule.2.1 noStringDates "44197" 44197 (by decide) (by decide)⟩

/-- Unfolding equation of jsFindIndex on a cons cell. -/
theorem jsFindIndex_cons {α : Type} (p : α → Bool) (x : α) (t : List α) :
    jsFindIndex p (x :: t) = if p x then some 0 else (jsFindIndex p t).map (· + 1) := rfl

/-- jsFindIndex finds no index exactly when no element satisfies the
predicate. -/
theorem jsFindIndex_eq_none_iff {α : Type} (p : α → Bool) :
    ∀ l : List α, jsFindIndex p l = none ↔ ∀ (j : Nat) (hj : j < l.length), p l[j] = false := by
  intro l
  induction l with
  | nil => simp [jsFindIndex]
  | cons x t ih =>
    rw [jsFindIndex_cons]
    by_cases hp : p x = true
    · rw [if_pos hp]
      constructor
      · intro h
        exact absurd h (by simp)
      · intro h
        have h0 := h 0 (by simp)
        rw [List.getElem_cons_zero] at h0
        exact absurd hp (by simp [h0])
    · have hp' : p x = false := by simpa using hp
      rw [if_neg hp]
      constructor
      · intro h j hj
        cases j with
        | zero => simpa using hp'
        | succ j' =>
          have hj' : j' < t.length := by simpa using hj
          have ht : jsFindIndex p t = none := by
            cases ho : jsFindIndex p t with
            | none => rfl
            | some k => rw [ho] at h; exact absurd h (by simp)
          simpa using (ih.mp ht) j' hj'
      · intro h
        have ht : jsFindIndex p t = none := ih.mpr (fun j hj => by
          have hj1 := h (j + 1) (by simpa using Nat.succ_lt_succ hj)
          simpa using hj1)
        rw [ht]
        rfl

/-- jsFindIndex returns exactly the least index whose element satisfies the
predicate. -/
theorem jsFindIndex_eq_some_iff {α : Type} (p : α → Bool) :
    ∀ (l : List α) (i : Nat),
      jsFindIndex p l = some i ↔
        ∃ hi : i < l.length, p l[i] = true ∧
          ∀ (j : Nat) (hj : j < l.length), j < i → p l[j] = false := by
  intro l
  induction l with
  | nil =>
    intro i
    constructor
    · intro h
      exact absurd h (by simp [jsFindIndex])
    · rintro ⟨hi, -⟩
      exact absurd hi (by simp)
  | cons x t ih =>
    intro i
    rw [jsFindIndex_cons]
    by_cases hp : p x = true
    · rw [if_pos hp]
      constructor
      · intro h
        have h0 : i = 0 := by
          have := Option.some.inj h
          omega
        subst h0
        exact ⟨by simp, by simpa using hp, fun j hj hlt => absurd hlt (Nat.not_lt_zero j)⟩
      · rintro ⟨hi, hm, hleast⟩
        cases i with
        | zero => rfl
        | succ k =>
          have h0 := hleast 0 (by simp) (Nat.succ_pos k)
          rw [List.getElem_cons_zero] at h0
          exact absurd hp (by simp [h0])
    · have hp' : p x = false := by simpa using hp
      rw [if_neg hp]
      constructor
      · intro h
        rcases Option.map_eq_some'.mp h with ⟨k, hk, hki⟩
        obtain ⟨hkl, hkm, hkleast⟩ := (ih k).mp hk
        subst hki
        refine ⟨by simpa using Nat.succ_lt_succ hkl, by simpa using hkm, ?_⟩
        intro j hj hlt
        cases j with
        | zero => simpa using hp'
        | succ j' =>
          have hj' : j' < t.length := by simpa using hj
          have hlt' : j' < k := by omega
          simpa using hkleast j' hj' hlt'
      · rintro ⟨hi, hm, hleast⟩
        cases i with
        | zero =>
          rw [List.getElem_cons_zero] at hm
          exact absurd hm (by simp [hp'])
        | succ k =>
          have hkl : k < t.length := by simpa using hi
          have hkm : p t[k] = true := by simpa using hm
          have hkleast : ∀ (j : Nat) (hj : j < t.length), j < k → p t[j] = false := by
            intro j hj hlt
            have hj1 : j + 1 < (x :: t).length := by simpa using Nat.succ_lt_succ hj
            have := hleast (j + 1) hj1 (Nat.succ_lt_succ hlt)
            simpa using this
          have hsome := (ih k).mpr ⟨hkl, hkm, hkleast⟩
          rw [hsome]
          rfl

/-- Claim C8 (confirmed): the column mapper assigns to each logical field the
first header, in original column order, whose normalized form contains a
candidate substring, and leaves the field unmapped when no header matches; on
the headers Invoice Date, Client Name, E-mail it maps date, name and email as
the claim states, and the part_000 findKey agrees on that example. -/
theorem c8_column_mapper :
    (∀ (headers : List String) (f : LogicalCol) (h : String),
      mapColumns headers f = some h ↔
        ∃ i, ∃ hi : i < headers.length, headers[i] = h ∧
          headerMatches f headers[i] = true ∧
          ∀ (j : Nat) (hj : j < headers.length), j < i → headerMatches f headers[j] = false) ∧
    (∀ (headers : List String) (f : LogicalCol),
      mapColumns headers f = none ↔
        ∀ (j : Nat) (hj : j < headers.length), headerMatches f headers[j] = false) ∧
    mapColumns ["Invoice Date", "Client Name", "E-mail"] LogicalCol.date = some "Invoice Date" ∧
    mapColumns ["Invoice Date", "Client Name", "E-mail"] LogicalCol.name = some "Client Name" ∧
    mapColumns ["Invoice Date", "Client Name", "E-mail"] LogicalCol.email = some "E-mail" ∧
    findKey ["Invoice Date", "Client Name", "E-mail"]
      ["client", "name", "customer", "societe", "client"] = some "Client Name" ∧
    findKey ["Invoice Date", "Client Name", "E-mail"] ["email", "mail"] = some "E-mail" ∧
    findKey ["Invoice Date", "Client Name", "E-mail"]
      ["date", "invoicedate", "datefacture", "facture"] = some "Invoice Date" := by
  refine ⟨?_, ?_, by decide, by decide, by decide, by decide, by decide, by decide⟩
  · intro headers f h
    unfold mapColumns
    cases ho : jsFindIndex (fun h0 => (jsxCandidates f).any fun n => containsSeq h0.data n.data)
        (headers.map normalizeHeader) with
    | none =>
      constructor
      · intro hc
        exact absurd hc (by simp)
      · rintro ⟨i, hi, -, hm, -⟩
        have hnone := (jsFindIndex_eq_none_iff _ _).mp ho i (by simpa using hi)
        rw [List.getElem_map] at hnone
        exact absurd hm (by simp [headerMatches, hnone])
    | some idx =>
      obtain ⟨hidx, hmatch, hleast⟩ := (jsFindIndex_eq_some_iff _ _ idx).mp ho
      have hidx' : idx < headers.length := by simpa using hidx
      rw [List.getElem_map] at hmatch
      constructor
      · intro hc
        have hch : headers[idx]? = some h := hc
        have hval : headers[idx] = h := by
          rw [List.getElem?_eq_getElem hidx'] at hch
          exact Option.some.inj hch
        refine ⟨idx, hidx', hval, hmatch, ?_⟩
        intro j hj hlt
        have := hleast j (by simpa using hj) hlt
        rw [List.getElem_map] at this
        exact this
      · rintro ⟨i, hi, hval, hm, hleastI⟩
        have hii : i = idx := by
          rcases Nat.lt_trichotomy i idx with hx | hx | hx
          · have hthis := hleast i (by simpa using hi) hx
            rw [List.getElem_map] at hthis
            have hthis' : headerMatches f headers[i] = false := hthis
            exact absurd hm (by simp [hthis'])
          · exact hx
          · have hmatch' : headerMatches f headers[idx] = true := hmatch
            exact absurd hmatch' (by simp [hleastI idx hidx' hx])
        subst hii
        show headers[i]? = some h
        rw [List.getElem?_eq_getElem hi, hval]
  · intro headers f
    unfold mapColumns
    cases ho : jsFindIndex (fun h0 => (jsxCandidates f).any fun n => containsSeq h0.data n.data)
        (headers.map normalizeHeader) with
    | none =>
      constructor
      · intro _ j hj
        have := (jsFindIndex_eq_none_iff _ _).mp ho j (by simpa using hj)
        rw [List.getElem_map] at this
        exact this
      · intro _
        rfl
    | some idx =>
      obtain ⟨hidx, hmatch, -⟩ := (jsFindIndex_eq_some_iff _ _ idx).mp ho
      have hidx' : idx < headers.length := by simpa using hidx
      rw [List.getElem_map] at hmatch
      constructor
      · intro hc
        have : headers[idx]? = none := hc
        rw [List.getElem?_eq_getElem hidx'] at this
        exact absurd this (by simp)
      · intro hall
        have hmatch' : headerMatches f headers[idx] = true := hmatch
        exact absurd hmatch' (by simp [hall idx hidx'])

/-- Claim C8 witness: the characterization applied to a one-header list,
recovering the concrete mapping. -/
theorem c8_column_mapper_witness :
    mapColumns ["Invoice Date"] LogicalCol.date = some "Invoice Date" :=
  (c8_column_mapper.1 ["Invoice Date"] LogicalCol.date "Invoice Date").mpr
    ⟨0, by decide, by decide, by decide, fun j hj hlt => absurd hlt (Nat.not_lt_zero j)⟩

/-- Unfolding equation of firstMatchIdx on a cons cell. -/
theorem firstMatchIdx_cons (pat : List Char) (c : Char) (t : List Char) :
    firstMatchIdx pat (c :: t) =
      if pat.isPrefixOf (c :: t) then some 0 else (firstMatchIdx pat t).map (· + 1) := rfl

/-- firstMatchIdx finds no index exactly when the pattern occurs at no
position. -/
theorem firstMatchIdx_eq_none_iff (pat : List Char) :
    ∀ s : List Char,
      firstMatchIdx pat s = none ↔ ∀ j : Nat, pat.isPrefixOf (s.drop j) = false := by
  intro s
  induction s with
  | nil =>
    constructor
    · intro h j
      cases pat with
      | nil => exact absurd h (by simp [firstMatchIdx])
      | cons p pt =>
        show List.isPrefixOf (p :: pt) (List.drop j []) = false
        rw [List.drop_nil]
        rfl
    · intro h
      cases pat with
      | nil => exact absurd (h 0) (by simp [List.isPrefixOf])
      | cons p pt => rfl
  | cons c t ih =>
    rw [firstMatchIdx_cons]
    by_cases hp : pat.isPrefixOf (c :: t) = true
    · rw [if_pos hp]
      constructor
      · intro h
        exact absurd h (by simp)
      · intro h
        have h0 := h 0
        rw [List.drop_zero] at h0
        exact absurd hp (by simp [h0])
    · have hp' : pat.isPrefixOf (c :: t) = false := Bool.eq_false_iff.mpr hp
      rw [if_neg hp]
      constructor
      · intro h j
        cases j with
        | zero =>
          rw [List.drop_zero]
          exact hp'
        | succ j' =>
          have ht : firstMatchIdx pat t = none := by
            cases ho : firstMatchIdx pat t with
            | none => rfl
            | some k => rw [ho] at h; exact absurd h (by simp)
          simpa using (ih.mp ht) j'
      · intro h
        have ht : firstMatchIdx pat t = none := ih.mpr (fun j => by simpa using h (j + 1))
        rw [ht]
        rfl

/-- firstMatchIdx returns exactly the least position at which the pattern
occurs. -/
theorem firstMatchIdx_eq_some_iff (pat : List Char) :
    ∀ (s : List Char) (i : Nat),
      firstMatchIdx pat s = some i ↔
        (pat.isPrefixOf (s.drop i) = true ∧
         ∀ j : Nat, j < i → pat.isPrefixOf (s.drop j) = false) := by
  intro s
  induction s with
  | nil =>
    intro i
    cases pat with
    | nil =>
      constructor
      · intro h
        have h0 : i = 0 := by
          have := Option.some.inj h
          omega
        subst h0
        exact ⟨rfl, fun j hj => absurd hj (Nat.not_lt_zero j)⟩
      · rintro ⟨-, hleast⟩
        cases i with
        | zero => rfl
        | succ k => exact absurd (hleast 0 (Nat.succ_pos k)) (by simp [List.isPrefixOf])
    | cons p pt =>
      constructor
      · intro h
        exact absurd h (by simp [firstMatchIdx])
      · rintro ⟨hm, -⟩
        rw [List.drop_nil] at hm
        exact absurd hm (by simp [List.isPrefixOf])
  | cons c t ih =>
    intro i
    rw [firstMatchIdx_cons]
    by_cases hp : pat.isPrefixOf (c :: t) = true
    · rw [if_pos hp]
      constructor
      · intro h
        have h0 : i = 0 := by
          have := Option.some.inj h
          omega
        subst h0
        rw [List.drop_zero]
        exact ⟨hp, fun j hj => absurd hj (Nat.not_lt_zero j)⟩
      · rintro ⟨-, hleast⟩
        cases i with
        | zero => rfl
        | succ k =>
          have h0 := hleast 0 (Nat.succ_pos k)
          rw [List.drop_zero] at h0
          exact absurd hp (by simp [h0])
    · have hp' : pat.isPrefixOf (c :: t) = false := Bool.eq_false_iff.mpr hp
      rw [if_neg hp]
      constructor
      · intro h
        rcases Option.map_eq_some'.mp h with ⟨k, hk, hki⟩
        obtain ⟨hkm, hkleast⟩ := (ih k).mp hk
        subst hki
        refine ⟨by simpa using hkm, ?_⟩
        intro j hj
        cases j with
        | zero =>
          rw [List.drop_zero]
          exact hp'
        | succ j' =>
          have hlt : j' < k := by omega
          simpa using hkleast j' hlt
      · rintro ⟨hm, hleast⟩
        cases i with
        | zero =>
          rw [List.drop_zero] at hm
          exact absurd hm (by simp [hp'])
        | succ k =>
          have hkm : pat.isPrefixOf (t.drop k) = true := by simpa using hm
          have hkleast : ∀ j : Nat, j < k → pat.isPrefixOf (t.drop j) = false := by
            intro j hj
            have := hleast (j + 1) (Nat.succ_lt_succ hj)
            simpa using this
          rw [(ih k).mpr ⟨hkm, hkleast⟩]
          rfl

/-- A replacement string without a dollar character passes through
GetSubstitution verbatim. -/
theorem getSubstitution_no_dollar (matched before after : List Char) :
    ∀ r : List Char, r.contains '$' = false → getSubstitution matched before after r = r
  | [], _ => rfl
  | [c], _ => rfl
  | c :: d :: t2, h => by
    rw [List.contains_cons, List.contains_cons] at h
    have hcb : ('$' == c) = false := by
      cases hcc : '$' == c
      · rfl
      · rw [hcc] at h; simp at h
    have hdb : ('$' == d) = false := by
      cases hdd : '$' == d
      · rfl
      · rw [hdd] at h; simp at h
    have ht' : t2.contains '$' = false := by
      cases htt : t2.contains '$'
      · rfl
      · rw [htt] at h; simp at h
    have hc : ¬c = '$' := fun he => by
      rw [he] at hcb
      simp at hcb
    have htail : (d :: t2).contains '$' = false := by
      rw [List.contains_cons, hdb, ht']
      rfl
    simp only [getSubstitution]
    rw [if_neg hc]
    rw [getSubstitution_no_dollar matched before after (d :: t2) htail]

/-- With a dollar-free replacement, the JS replace agrees with the spec-words
first-occurrence substitution. -/
theorem jsReplaceFirst_eq_spec (pat repl s : String) (h : noDollar repl = true) :
    jsReplaceFirst pat repl s = specReplaceFirst pat repl s := by
  have hr : repl.data.contains '$' = false := by
    simpa [noDollar] using h
  unfold jsReplaceFirst specReplaceFirst jsReplaceFirstL specReplaceFirstL
  cases hf : firstMatchIdx pat.data s.data with
  | none => rfl
  | some i =>
    show String.mk (s.data.take i ++
        getSubstitution pat.data (s.data.take i) (s.data.drop (i + pat.data.length)) repl.data ++
        s.data.drop (i + pat.data.length)) =
      String.mk (s.data.take i ++ repl.data ++ s.data.drop (i + pat.data.length))
    rw [getSubstitution_no_dollar _ _ _ _ hr]

/-- Claim C6 counterexample: with the template holding the name placeholder
and then the invoice placeholder, and a record whose client name is itself the
invoice placeholder token, rendering yields INV before a live invoice
placeholder; the claim predicts the template's own first invoice occurrence is
the replaced one, which would yield the tokens in the opposite order. -/
theorem c6_counterexample :
    renderTemplate "\x7b\x7bname\x7d\x7d \x7b\x7binvoice\x7d\x7d" cascadeRow =
      "INV \x7b\x7binvoice\x7d\x7d" ∧
    renderTemplate "\x7b\x7bname\x7d\x7d \x7b\x7binvoice\x7d\x7d" cascadeRow ≠
      "\x7b\x7binvoice\x7d\x7d INV" := by
  exact ⟨by decide, by decide⟩

/-- Claim C6 (amended): rendering is four sequential first-occurrence
substitutions in the order name, invoice, amount, days, each acting on the
output of the previous one; a single substitution replaces exactly the first
position at which its placeholder occurs, leaving everything else, unknown
placeholders included, verbatim, and leaves the string unchanged when the
placeholder does not occur. Because the steps are sequential, substituted
values take part in later steps, so only for values free of dollar characters
does the whole pipeline equal the spec-words substitution chain. -/
theorem c6_template_rule :
    (∀ (pat repl s : List Char) (i : Nat),
      firstMatchIdx pat s = some i →
        pat.isPrefixOf (s.drop i) = true ∧
        (∀ j : Nat, j < i → pat.isPrefixOf (s.drop j) = false) ∧
        specReplaceFirstL pat repl s = s.take i ++ repl ++ s.drop (i + pat.length)) ∧
    (∀ (pat repl s : List Char),
      firstMatchIdx pat s = none →
        (∀ j : Nat, pat.isPrefixOf (s.drop j) = false) ∧
        specReplaceFirstL pat repl s = s) ∧
    (∀ (t : String) (x : JsxRow),
      noDollar (jsToString x.clientName) = true →
      noDollar (jsToString x.invoiceNumber) = true →
      noDollar (jsToString x.amount) = true →
      noDollar (jsDaysToString x.days) = true →
      renderTemplate t x = specRenderTemplate t x) := by
  refine ⟨?_, ?_, ?_⟩
  · intro pat repl s i h
    obtain ⟨hm, hleast⟩ := (firstMatchIdx_eq_some_iff pat s i).mp h
    refine ⟨hm, hleast, ?_⟩
    unfold specReplaceFirstL
    rw [h]
  · intro pat repl s h
    refine ⟨(firstMatchIdx_eq_none_iff pat s).mp h, ?_⟩
    unfold specReplaceFirstL
    rw [h]
  · intro t x h1 h2 h3 h4
    unfold renderTemplate specRenderTemplate
    rw [jsReplaceFirst_eq_spec _ _ _ h1, jsReplaceFirst_eq_spec _ _ _ h2,
        jsReplaceFirst_eq_spec _ _ _ h3, jsReplaceFirst_eq_spec _ _ _ h4]

/-- Claim C6 witness: the sequential rule applied to a concrete template and
record with dollar-free values. -/
theorem c6_template_rule_witness :
    renderTemplate "\x7b\x7bname\x7d\x7d!" cascadeRow =
      specRenderTemplate "\x7b\x7bname\x7d\x7d!" cascadeRow :=
  c6_template_rule.2.2 "\x7b\x7bname\x7d\x7d!" cascadeRow
    (by decide) (by decide) (by decide) (by decide)
